import Mathlib

/-!
Verification of `sqlalchemy_query_helpers/main.py` (class `DB`).

The Python methods are embedded shallowly:
pure data shuffling (`__to_dict`, `clean_values`, `__check_modelkeys`,
the `update_dict` computation of `upsert`) becomes Lean functions on
inductive row/value types; methods whose behaviour depends on the
storage layer (`insert_ignore_many`, `upsert`, `execute_sqls`) become
functions parameterised by the storage layer's per-step outcomes,
returning the trace of session operations they issue together with
their result (or propagated error).
-/

/-- A Python value stored in a row: a string, a non-string scalar
(modelled as an integer), or `None`. -/
inductive Value where
  | vstr : String → Value
  | vint : Int → Value
  | vnone : Value
deriving DecidableEq, Repr

/-- Python `str.strip()`: remove leading and trailing whitespace. -/
def pyStrip (s : String) : String :=
  ⟨((s.toList.dropWhile Char.isWhitespace).reverse.dropWhile Char.isWhitespace).reverse⟩

/-- `DB.clean_values` (main.py line 100):
`{k: v.strip() or None if isinstance(v, str) else v for k, v in d.items()}`.
By Python precedence this is `(v.strip() or None) if isinstance(v, str) else v`,
and `x or None` yields `None` exactly when the stripped string is empty. -/
def clean_values (d : List (String × Value)) : List (String × Value) :=
  d.map (fun kv =>
    (kv.1, match kv.2 with
           | Value.vstr s => if pyStrip s = "" then Value.vnone else Value.vstr (pyStrip s)
           | v => v))

/-- Modelled from the spec, for the refinement claim about value cleaning
(spec section 4.1): every string value is stripped of leading/trailing
whitespace; a string consisting only of whitespace (including the empty
string) becomes the absent-value marker; non-string values pass through. -/
def specCleanValue (v : Value) : Value :=
  match v with
  | Value.vstr s => if s.toList.all Char.isWhitespace then Value.vnone else Value.vstr (pyStrip s)
  | v => v

/-- A model field (SQLAlchemy `InstrumentedAttribute`): it carries an
object-model key (`.key`) and a storage-column name (`.name`). -/
structure MField where
  key : String
  name : String
deriving DecidableEq, Repr

/-- A key of a mapping row passed to `__to_dict`: either a model-field
descriptor (an `InstrumentedAttribute`) or a plain string. -/
inductive RowKey where
  | field : MField → RowKey
  | plain : String → RowKey
deriving DecidableEq, Repr

/-- `True` exactly for descriptor keys (`isinstance(k, InstrumentedAttribute)`). -/
def RowKey.isField : RowKey → Bool
  | RowKey.field _ => true
  | RowKey.plain _ => false

/-- Underlying string of a plain key; on a descriptor key it falls back to
the column name (that case is unreachable where this is used: the
pass-through branch of `__to_dict` runs only when no key is a descriptor). -/
def RowKey.asPlain : RowKey → String
  | RowKey.plain s => s
  | RowKey.field f => f.name

/-- The `row` argument of `__to_dict`: a mapping, a list/tuple of values,
a single string scalar, or a value of any other type. -/
inductive RowData where
  | dict : List (RowKey × Value) → RowData
  | seq : List Value → RowData
  | scalar : String → RowData
  | other : RowData
deriving DecidableEq, Repr

/-- The errors `__to_dict` can raise. -/
inductive PyErr where
  | shapeMismatch
  | typeAssert
  | unknownRowType
  | attrError
deriving DecidableEq, Repr

/-- The field names selected for zipping (main.py line 87):
`[f.key for f in mfields] if use_mfield_keys else [f.name for f in mfields]`. -/
def selNames (use_mfield_keys : Bool) (mfields : List MField) : List String :=
  mfields.map (fun f => if use_mfield_keys then f.key else f.name)

/-- Key rewriting of a mapping row when some key is a descriptor
(main.py line 80): `{k.key: v ...}` or `{k.name: v ...}` over every entry.
Accessing `.key` / `.name` on a plain string key raises `AttributeError`. -/
def rewriteKeys (use_orm_keys : Bool) : List (RowKey × Value) → Except PyErr (List (String × Value))
  | [] => Except.ok []
  | (k, v) :: rest =>
    match k with
    | RowKey.field f =>
        match rewriteKeys use_orm_keys rest with
        | Except.ok tail => Except.ok ((if use_orm_keys then f.key else f.name, v) :: tail)
        | Except.error e => Except.error e
    | RowKey.plain _ => Except.error PyErr.attrError

/-- `DB.__to_dict` (main.py lines 70-96). An empty `mfields` list stands
for both Python `None` and `[]`, which the guard `elif mfields:` treats
alike (both are falsy). -/
def toDict (row : RowData) (mfields : List MField) (use_mfield_keys use_orm_keys : Bool) :
    Except PyErr (List (String × Value)) :=
  match row with
  | RowData.dict d =>
      if d.any (fun kv => kv.1.isField) then
        match rewriteKeys use_orm_keys d with
        | Except.ok pairs => Except.ok (clean_values pairs)
        | Except.error e => Except.error e
      else
        Except.ok (clean_values (d.map (fun kv => (kv.1.asPlain, kv.2))))
  | RowData.seq vs =>
      if mfields.isEmpty then Except.error PyErr.unknownRowType
      else if mfields.length = vs.length then
        Except.ok (clean_values (List.zip (selNames use_mfield_keys mfields) vs))
      else Except.error PyErr.shapeMismatch
  | RowData.scalar s =>
      if mfields.isEmpty then Except.error PyErr.unknownRowType
      else if mfields.length = 1 then
        Except.ok (clean_values (List.zip (selNames use_mfield_keys mfields) [Value.vstr s]))
      else Except.error PyErr.shapeMismatch
  | RowData.other =>
      if mfields.isEmpty then Except.error PyErr.unknownRowType
      else Except.error PyErr.typeAssert

/-- `DB.__check_modelkeys` (main.py lines 56-68): split a canonical row
into the entries whose key is among the cause keys and the rest. -/
def check_modelkeys (row : List (String × Value)) (cause_dict : List MField) :
    List (String × Value) × List (String × Value) :=
  let model_keys := cause_dict.map (fun n => n.key)
  (row.filter (fun kv => model_keys.contains kv.1),
   row.filter (fun kv => !(model_keys.contains kv.1)))


/-- Outcome of staging one row inside its nested transaction scope,
as reported by the storage layer when the scope is closed. -/
inductive RowOutcome where
  | ok
  | integrity
  | failure
deriving DecidableEq, Repr

/-- A session operation issued by `insert_ignore_many`. -/
inductive SessionOp where
  | beginNested
  | addRecord : Nat → SessionOp
  | releaseNested
  | rollbackNested
  | commit
deriving DecidableEq, Repr

/-- Loop body of `DB.insert_ignore_many` (main.py lines 130-140):
for each row open a nested scope, add the record, close the scope;
set `is_inserted` on success, discard the scope and continue on
`IntegrityError`, propagate any other exception (the `with` block rolls
the savepoint back before re-raising). Rows are identified by position.
Returns the trace of session operations and either the propagated error
or the final `is_inserted` flag. -/
def iimGo : Nat → List RowOutcome → Bool → List SessionOp × Except Unit Bool
  | _, [], ins => ([SessionOp.commit], Except.ok ins)
  | i, RowOutcome.ok :: rest, _ =>
      let r := iimGo (i + 1) rest true
      ([SessionOp.beginNested, SessionOp.addRecord i, SessionOp.releaseNested] ++ r.1, r.2)
  | i, RowOutcome.integrity :: rest, ins =>
      let r := iimGo (i + 1) rest ins
      ([SessionOp.beginNested, SessionOp.addRecord i, SessionOp.rollbackNested] ++ r.1, r.2)
  | i, RowOutcome.failure :: _, _ =>
      ([SessionOp.beginNested, SessionOp.addRecord i, SessionOp.rollbackNested], Except.error ())

/-- `DB.insert_ignore_many` (main.py lines 128-141), starting with
`is_inserted = False` and issuing `self.session.commit()` after the loop. -/
def insert_ignore_many (rows : List RowOutcome) : List SessionOp × Except Unit Bool :=
  iimGo 0 rows false

/-- Interpreter for a `SessionOp` trace: which records end up staged in
the enclosing transaction. A nested scope buffers its additions; closing
the scope publishes them, rolling it back discards them; records pending
when the trace ends (an exception escaped mid-scope) are discarded. -/
def applyOps : List SessionOp → List Nat → List Nat → List Nat
  | [], staged, _ => staged
  | SessionOp.beginNested :: rest, staged, _ => applyOps rest staged []
  | SessionOp.addRecord i :: rest, staged, pending => applyOps rest staged (pending ++ [i])
  | SessionOp.releaseNested :: rest, staged, pending => applyOps rest (staged ++ pending) []
  | SessionOp.rollbackNested :: rest, staged, _ => applyOps rest staged []
  | SessionOp.commit :: rest, staged, pending => applyOps rest (staged ++ pending) []

/-- Positions of the rows whose nested scope succeeds, counting from `i`. -/
def okIdx : Nat → List RowOutcome → List Nat
  | _, [] => []
  | i, RowOutcome.ok :: rest => i :: okIdx (i + 1) rest
  | i, _ :: rest => okIdx (i + 1) rest

/-- A table column as seen by `upsert`: name plus the `unique` and
`primary_key` flags (Python `None` flags behave as `False` under
`is not True`). -/
structure Column where
  name : String
  unique : Bool
  primary_key : Bool
deriving DecidableEq, Repr

/-- The on-duplicate update clause of `DB.upsert` (main.py lines 232-236):
with filtering, keep an inserted column exactly when some table column of
the same name is neither unique nor primary-key; without filtering keep
all inserted columns. The Python dict comprehension is keyed by column
name, so this list of names carries the same key set. -/
def update_dict (inserted : List Column) (cols : List Column)
    (filter_unque_primary_keys : Bool) : List String :=
  if filter_unque_primary_keys then
    (inserted.filter (fun x =>
      cols.any (fun c => x.name == c.name && !c.unique && !c.primary_key))).map (fun x => x.name)
  else
    inserted.map (fun x => x.name)

/-- A statement-level operation issued by `upsert` on its session. -/
inductive UpsertOp where
  | executeStmt
  | commit
  | rollback
deriving DecidableEq, Repr

/-- `DB.upsert` (main.py lines 228-246): build the update clause; if it is
empty return at once (no statement executed). Otherwise execute the upsert
statement (an execution failure propagates), and when `do_commit` is set,
commit; a commit failure is caught, the session rolled back, and the
exception discarded. The storage layer's behaviour is supplied through
`execute_succeeds` / `commit_succeeds`. -/
def upsert (inserted : List Column) (cols : List Column)
    (filter_unque_primary_keys do_commit execute_succeeds commit_succeeds : Bool) :
    Except Unit (List UpsertOp) :=
  let ud := update_dict inserted cols filter_unque_primary_keys
  if ud.isEmpty then Except.ok []
  else if execute_succeeds then
    if do_commit then
      if commit_succeeds then Except.ok [UpsertOp.executeStmt, UpsertOp.commit]
      else Except.ok [UpsertOp.executeStmt, UpsertOp.commit, UpsertOp.rollback]
    else Except.ok [UpsertOp.executeStmt]
  else Except.error ()

/-- Storage outcome of one raw statement in `execute_sqls`. -/
inductive StmtOutcome where
  | succeeds
  | fails
deriving DecidableEq, Repr

/-- A connection-level operation issued by `execute_sqls`. -/
inductive ConnOp where
  | connect
  | execStmt : Nat → ConnOp
  | rollback
deriving DecidableEq, Repr

/-- Loop of `DB.execute_sqls` (main.py lines 292-293): execute each
statement in order; a failing statement aborts the loop and the error
propagates. -/
def esGo : Nat → List StmtOutcome → List ConnOp × Except Unit Unit
  | _, [] => ([], Except.ok ())
  | i, StmtOutcome.succeeds :: rest =>
      let r := esGo (i + 1) rest
      (ConnOp.execStmt i :: r.1, r.2)
  | i, StmtOutcome.fails :: _ => ([ConnOp.execStmt i], Except.error ())

/-- `DB.execute_sqls` (main.py lines 287-293): open one connection, then
run the statements in order. -/
def execute_sqls (stmts : List StmtOutcome) : List ConnOp × Except Unit Unit :=
  let r := esGo 0 stmts
  (ConnOp.connect :: r.1, r.2)

-- Key fact for the cleaning refinement: stripping yields the empty string
-- exactly on all-whitespace input.
lemma pyStrip_eq_empty_iff (s : String) :
    pyStrip s = "" ↔ ∀ c ∈ s.toList, c.isWhitespace := by
  unfold pyStrip
  constructor
  · intro h c hc
    have hdata : (((s.toList.dropWhile Char.isWhitespace).reverse.dropWhile
        Char.isWhitespace).reverse) = [] := congrArg String.toList h
    rw [List.reverse_eq_nil_iff, List.dropWhile_eq_nil_iff] at hdata
    have hall : ∀ x ∈ s.toList.dropWhile Char.isWhitespace, Char.isWhitespace x := by
      intro x hx
      exact hdata x (List.mem_reverse.mpr hx)
    have hnil : s.toList.dropWhile Char.isWhitespace = [] := by
      by_contra hne
      have hpos : 0 < (s.toList.dropWhile Char.isWhitespace).length :=
        List.length_pos.mpr hne
      have hx := List.dropWhile_get_zero_not (p := Char.isWhitespace) s.toList hpos
      exact hx (hall _ (List.get_mem _ 0 hpos))
    rw [List.dropWhile_eq_nil_iff] at hnil
    exact hnil c hc
  · intro h
    have h1 : s.toList.dropWhile Char.isWhitespace = [] :=
      List.dropWhile_eq_nil_iff.mpr h
    rw [h1]
    rfl

example : clean_values [("a", Value.vstr "  x "), ("b", Value.vstr "   "), ("c", Value.vint 3)]
    = [("a", Value.vstr "x"), ("b", Value.vnone), ("c", Value.vint 3)] := by decide

-- The per-value cleaning of `clean_values` agrees with the spec's
-- description of value cleaning.
lemma strip_or_none_eq_spec (s : String) :
    (if pyStrip s = "" then Value.vnone else Value.vstr (pyStrip s))
      = specCleanValue (Value.vstr s) := by
  show _ = if s.toList.all Char.isWhitespace then Value.vnone else Value.vstr (pyStrip s)
  by_cases h : pyStrip s = ""
  · have hall : s.toList.all Char.isWhitespace = true :=
      List.all_eq_true.mpr ((pyStrip_eq_empty_iff s).mp h)
    rw [if_pos h, if_pos hall]
  · have hall : ¬ s.toList.all Char.isWhitespace = true := by
      intro hc
      exact h ((pyStrip_eq_empty_iff s).mpr (List.all_eq_true.mp hc))
    rw [if_neg h, if_neg hall]

-- `clean_values` leaves the key column of a row untouched.
lemma clean_values_keys (d : List (String × Value)) :
    (clean_values d).map Prod.fst = d.map Prod.fst := by
  unfold clean_values
  rw [List.map_map]
  rfl

/-- Claim C2: value cleaning strips every string value, turns every
whitespace-only string (the empty string included) into the absent-value
marker rather than an empty string, and leaves non-string values
unchanged — i.e. `clean_values` applies exactly the spec's cleaning to
every value while keeping the keys. -/
theorem clean_values_correct (d : List (String × Value)) :
    clean_values d = d.map (fun kv => (kv.1, specCleanValue kv.2)) := by
  unfold clean_values
  congr 1
  funext kv
  rcases kv with ⟨k, v⟩
  cases v with
  | vstr s => exact congrArg (fun x => (k, x)) (strip_or_none_eq_spec s)
  | vint n => rfl
  | vnone => rfl

/-- Claim C4: `__check_modelkeys` partitions a canonical row: the first
component holds exactly the entries whose key is among the cause-field
keys, the second all other entries; together they cover the row and their
key sets are disjoint. -/
theorem check_modelkeys_partition (row : List (String × Value)) (cause : List MField) :
    (∀ kv, kv ∈ (check_modelkeys row cause).1 ↔
        kv ∈ row ∧ kv.1 ∈ cause.map (fun n => n.key)) ∧
    (∀ kv, kv ∈ (check_modelkeys row cause).2 ↔
        kv ∈ row ∧ kv.1 ∉ cause.map (fun n => n.key)) ∧
    (∀ kv, kv ∈ row ↔
        kv ∈ (check_modelkeys row cause).1 ∨ kv ∈ (check_modelkeys row cause).2) ∧
    (∀ k, k ∈ (check_modelkeys row cause).1.map Prod.fst →
        k ∉ (check_modelkeys row cause).2.map Prod.fst) := by
  unfold check_modelkeys
  refine ⟨?_, ?_, ?_, ?_⟩
  · intro kv
    simp [List.mem_filter]
  · intro kv
    simp [List.mem_filter]
  · intro kv
    simp only [List.mem_filter]
    by_cases h : kv.1 ∈ cause.map (fun n => n.key) <;> simp [h]
  · intro k hk hk2
    simp only [List.mem_map] at hk hk2
    rcases hk with ⟨kv, hkv, rfl⟩
    rcases hk2 with ⟨kw, hkw, hkey⟩
    rw [List.mem_filter] at hkv hkw
    have h1 : kv.1 ∈ cause.map (fun n => n.key) := by
      simpa using hkv.2
    have h2 : kw.1 ∉ cause.map (fun n => n.key) := by
      simpa using hkw.2
    exact h2 (hkey ▸ h1)

/-- Witness for claim C4 at a concrete row and cause list: the key of the
cause subset does not occur among the remainder keys. -/
theorem check_modelkeys_partition_witness :
    "date" ∈ ((check_modelkeys [("date", Value.vstr "d"), ("value", Value.vint 3)]
        [MField.mk "date" "date"]).1.map Prod.fst) ∧
    "date" ∉ ((check_modelkeys [("date", Value.vstr "d"), ("value", Value.vint 3)]
        [MField.mk "date" "date"]).2.map Prod.fst) :=
  ⟨by decide,
   (check_modelkeys_partition [("date", Value.vstr "d"), ("value", Value.vint 3)]
      [MField.mk "date" "date"]).2.2.2 "date" (by decide)⟩

/-- Claim C1: when a sequence row and the field list have equal length,
the canonical row produced by `__to_dict` has as keys exactly the names
selected from the field list by the key mode (even as an ordered list,
hence also as a set). -/
theorem toDict_seq_keys (vs : List Value) (f : List MField) (umk uok : Bool)
    (d : List (String × Value)) (hlen : vs.length = f.length)
    (h : toDict (RowData.seq vs) f umk uok = Except.ok d) :
    d.map Prod.fst = selNames umk f ∧
    (d.map Prod.fst).toFinset = (selNames umk f).toFinset := by
  cases f with
  | nil =>
      exfalso
      simp [toDict] at h
  | cons f0 fs =>
      have hne : ((f0 :: fs : List MField).isEmpty) = false := rfl
      have hlen2 : (f0 :: fs : List MField).length = vs.length := hlen.symm
      rw [toDict, hne] at h
      simp only [Bool.false_eq_true, if_false, hlen2, if_pos rfl] at h
      have hd : d = clean_values (List.zip (selNames umk (f0 :: fs)) vs) := by
        exact (Except.ok.injEq _ _).mp h.symm
      subst hd
      have hkeys : (clean_values (List.zip (selNames umk (f0 :: fs)) vs)).map Prod.fst
          = selNames umk (f0 :: fs) := by
        rw [clean_values_keys]
        apply List.map_fst_zip
        have : (selNames umk (f0 :: fs)).length = (f0 :: fs : List MField).length :=
          List.length_map _ _
        omega
      exact ⟨hkeys, by rw [hkeys]⟩

/-- Witness for claim C1 at a concrete sequence row and field list. -/
theorem toDict_seq_keys_witness :
    [Value.vstr " a "].length = [MField.mk "k" "n"].length ∧
    ([("k", Value.vstr "a")].map Prod.fst).toFinset
      = (selNames true [MField.mk "k" "n"]).toFinset :=
  ⟨by decide,
   (toDict_seq_keys [Value.vstr " a "] [MField.mk "k" "n"] true false
      [("k", Value.vstr "a")] (by decide) (by rfl)).2⟩

/-- Counterexample to claim C7 as stated: with the empty field list and a
one-element sequence the lengths disagree, yet `__to_dict` raises the
unknown-row-type error (the guard `elif mfields:` is falsy on an empty
list), not the shape-mismatch assertion. -/
theorem toDict_shape_counterexample :
    ([Value.vstr "a"].length ≠ ([] : List MField).length) ∧
    toDict (RowData.seq [Value.vstr "a"]) [] true false
      = Except.error PyErr.unknownRowType ∧
    toDict (RowData.seq [Value.vstr "a"]) [] true false
      ≠ Except.error PyErr.shapeMismatch := by
  refine ⟨by decide, rfl, ?_⟩
  intro hc
  rw [show toDict (RowData.seq [Value.vstr "a"]) [] true false
      = Except.error PyErr.unknownRowType from rfl] at hc
  injection hc with h
  exact PyErr.noConfusion h

/-- Claim C7 (amended: the field list must be nonempty; with an empty
field list `__to_dict` raises the unknown-row-type error instead): a
sequence row whose length differs from the nonempty field list's length,
and a scalar row with a nonempty field list of length other than one,
fail with the shape-mismatch error. -/
theorem toDict_shape_mismatch (vs : List Value) (s : String) (f : List MField)
    (umk uok : Bool) (hne : f ≠ []) :
    (f.length ≠ vs.length →
      toDict (RowData.seq vs) f umk uok = Except.error PyErr.shapeMismatch) ∧
    (f.length ≠ 1 →
      toDict (RowData.scalar s) f umk uok = Except.error PyErr.shapeMismatch) := by
  have hE : f.isEmpty = false := by
    cases f with
    | nil => exact absurd rfl hne
    | cons a l => rfl
  constructor
  · intro hlen
    simp [toDict, hE, hlen]
  · intro hlen
    simp [toDict, hE, hlen]

/-- Witness for claim C7 at concrete inputs: a two-value sequence with a
one-field list, and a scalar with a two-field list. -/
theorem toDict_shape_mismatch_witness :
    (([MField.mk "k" "n"] : List MField) ≠ [] ∧
      ([MField.mk "k" "n"] : List MField).length ≠ [Value.vint 1, Value.vint 2].length ∧
      toDict (RowData.seq [Value.vint 1, Value.vint 2]) [MField.mk "k" "n"] true false
        = Except.error PyErr.shapeMismatch) ∧
    (([MField.mk "k" "n", MField.mk "q" "m"] : List MField) ≠ [] ∧
      ([MField.mk "k" "n", MField.mk "q" "m"] : List MField).length ≠ 1 ∧
      toDict (RowData.scalar "x") [MField.mk "k" "n", MField.mk "q" "m"] true false
        = Except.error PyErr.shapeMismatch) :=
  ⟨⟨by decide, by decide,
    (toDict_shape_mismatch [Value.vint 1, Value.vint 2] "x" [MField.mk "k" "n"]
      true false (by decide)).1 (by decide)⟩,
   ⟨by decide, by decide,
    (toDict_shape_mismatch [] "x" [MField.mk "k" "n", MField.mk "q" "m"]
      true false (by decide)).2 (by decide)⟩⟩

-- Key rewriting fails with `AttributeError` as soon as some key of the
-- mapping is a plain string.
lemma rewriteKeys_plain_error (uok : Bool) (d : List (RowKey × Value))
    (h : ∃ kv ∈ d, kv.1.isField = false) :
    rewriteKeys uok d = Except.error PyErr.attrError := by
  induction d with
  | nil => simp at h
  | cons kv rest ih =>
      rcases kv with ⟨k, v⟩
      cases k with
      | plain s => rfl
      | field fl =>
          have hrest : ∃ kw ∈ rest, kw.1.isField = false := by
            rcases h with ⟨kw, hkw, hkwf⟩
            rcases List.mem_cons.mp hkw with h1 | h1
            · subst h1
              simp [RowKey.isField] at hkwf
            · exact ⟨kw, h1, hkwf⟩
          have hstep : rewriteKeys uok ((RowKey.field fl, v) :: rest)
              = match rewriteKeys uok rest with
                | Except.ok tail =>
                    Except.ok ((if uok then fl.key else fl.name, v) :: tail)
                | Except.error e => Except.error e := rfl
          rw [hstep, ih hrest]

/-- Claim C10: a mapping row that mixes a field-descriptor key with a
plain string key makes `__to_dict` rewrite every key, so the name lookup
on the plain string key fails with `AttributeError` and no canonical row
is returned. -/
theorem toDict_mixed_keys_fails (d : List (RowKey × Value)) (mfields : List MField)
    (umk uok : Bool) (hfield : ∃ kv ∈ d, kv.1.isField = true)
    (hplain : ∃ kv ∈ d, kv.1.isField = false) :
    toDict (RowData.dict d) mfields umk uok = Except.error PyErr.attrError := by
  have hany : d.any (fun kv => kv.1.isField) = true := by
    rcases hfield with ⟨kv, hkv, hf⟩
    exact List.any_eq_true.mpr ⟨kv, hkv, hf⟩
  have hrw := rewriteKeys_plain_error uok d hplain
  show (if d.any (fun kv => kv.1.isField) then
          match rewriteKeys uok d with
          | Except.ok pairs => Except.ok (clean_values pairs)
          | Except.error e => Except.error e
        else Except.ok (clean_values (d.map (fun kv => (kv.1.asPlain, kv.2))))) = _
  rw [if_pos hany, hrw]

/-- Witness for claim C10 at a concrete mixed-key mapping. -/
theorem toDict_mixed_keys_fails_witness :
    toDict (RowData.dict [(RowKey.field (MField.mk "k" "n"), Value.vint 1),
                          (RowKey.plain "x", Value.vint 2)]) [] true false
      = Except.error PyErr.attrError :=
  toDict_mixed_keys_fails _ [] true false
    ⟨(RowKey.field (MField.mk "k" "n"), Value.vint 1), by decide, rfl⟩
    ⟨(RowKey.plain "x", Value.vint 2), by decide, rfl⟩

/-- Counterexample to claim C8 as stated: a non-string scalar row (any
value that is neither a mapping, a list/tuple nor a string, such as the
integer 5) with a one-element field list is not treated as a one-element
sequence; the `isinstance(row, (list, tuple, str))` assertion fails, so
no mapping is returned. -/
theorem toDict_scalar_counterexample :
    toDict RowData.other [MField.mk "k" "n"] true false
      = Except.error PyErr.typeAssert ∧
    toDict RowData.other [MField.mk "k" "n"] true false
      ≠ Except.ok [("k", Value.vint 5)] := by
  refine ⟨rfl, ?_⟩
  intro hc
  rw [show toDict RowData.other [MField.mk "k" "n"] true false
      = Except.error PyErr.typeAssert from rfl] at hc
  exact Except.noConfusion hc

/-- Claim C8 (amended: the scalar must be a string; the code's
`isinstance(row, (list, tuple, str))` assertion rejects every other
scalar): a single string scalar with a one-element field list is
normalized exactly like the one-element sequence holding it and yields
the mapping from the field's selected name to the cleaned value, while a
non-string scalar fails the type assertion. -/
theorem toDict_scalar_singleton (s : String) (f : MField) (umk uok : Bool) :
    toDict (RowData.scalar s) [f] umk uok
      = toDict (RowData.seq [Value.vstr s]) [f] umk uok ∧
    toDict (RowData.scalar s) [f] umk uok
      = Except.ok [((if umk then f.key else f.name), specCleanValue (Value.vstr s))] ∧
    toDict RowData.other [f] umk uok = Except.error PyErr.typeAssert := by
  refine ⟨rfl, ?_, rfl⟩
  show Except.ok (clean_values [((if umk then f.key else f.name), Value.vstr s)]) = _
  rw [show clean_values [((if umk then f.key else f.name), Value.vstr s)]
      = [((if umk then f.key else f.name),
          if pyStrip s = "" then Value.vnone else Value.vstr (pyStrip s))] from rfl,
    strip_or_none_eq_spec]

-- Behaviour of the insert-ignore loop when no row hits a non-integrity
-- failure: the final flag records whether some nested scope succeeded,
-- exactly one commit is issued, and the records that end up staged are
-- exactly those of the successful scopes.
lemma iimGo_no_failure (rows : List RowOutcome) :
    ∀ i ins, RowOutcome.failure ∉ rows →
      (iimGo i rows ins).2 = Except.ok (ins || decide (RowOutcome.ok ∈ rows)) ∧
      (iimGo i rows ins).1.count SessionOp.commit = 1 ∧
      ∀ staged, applyOps (iimGo i rows ins).1 staged [] = staged ++ okIdx i rows := by
  induction rows with
  | nil =>
      intro i ins _
      refine ⟨by simp [iimGo], by simp [iimGo], ?_⟩
      intro staged
      show staged ++ [] = staged ++ okIdx i []
      rfl
  | cons a rest ih =>
      intro i ins h
      have hrest : RowOutcome.failure ∉ rest := fun hf => h (List.mem_cons_of_mem _ hf)
      cases a with
      | ok =>
          have hstep : iimGo i (RowOutcome.ok :: rest) ins
              = ([SessionOp.beginNested, SessionOp.addRecord i, SessionOp.releaseNested]
                  ++ (iimGo (i + 1) rest true).1, (iimGo (i + 1) rest true).2) := rfl
          obtain ⟨h1, h2, h3⟩ := ih (i + 1) true hrest
          refine ⟨?_, ?_, ?_⟩
          · rw [hstep]
            show (iimGo (i + 1) rest true).2 = _
            rw [h1]
            have hm : RowOutcome.ok ∈ RowOutcome.ok :: rest := List.mem_cons_self _ _
            simp [hm]
          · rw [hstep]
            show ([SessionOp.beginNested, SessionOp.addRecord i, SessionOp.releaseNested]
                ++ (iimGo (i + 1) rest true).1).count SessionOp.commit = 1
            rw [List.count_append, h2]
            rfl
          · intro staged
            rw [hstep]
            show applyOps ((iimGo (i + 1) rest true).1) (staged ++ ([] ++ [i])) [] = _
            rw [h3 (staged ++ ([] ++ [i]))]
            show staged ++ [i] ++ okIdx (i + 1) rest = staged ++ okIdx i (RowOutcome.ok :: rest)
            rw [okIdx, List.append_assoc]
            rfl
      | integrity =>
          have hstep : iimGo i (RowOutcome.integrity :: rest) ins
              = ([SessionOp.beginNested, SessionOp.addRecord i, SessionOp.rollbackNested]
                  ++ (iimGo (i + 1) rest ins).1, (iimGo (i + 1) rest ins).2) := rfl
          obtain ⟨h1, h2, h3⟩ := ih (i + 1) ins hrest
          refine ⟨?_, ?_, ?_⟩
          · rw [hstep]
            show (iimGo (i + 1) rest ins).2 = _
            rw [h1]
            have hm : (RowOutcome.ok ∈ RowOutcome.integrity :: rest)
                ↔ (RowOutcome.ok ∈ rest) := by
              simp
            simp [hm]
          · rw [hstep]
            show ([SessionOp.beginNested, SessionOp.addRecord i, SessionOp.rollbackNested]
                ++ (iimGo (i + 1) rest ins).1).count SessionOp.commit = 1
            rw [List.count_append, h2]
            rfl
          · intro staged
            rw [hstep]
            show applyOps ((iimGo (i + 1) rest ins).1) staged [] = _
            rw [h3 staged]
            rfl
      | failure => exact absurd (List.mem_cons_self _ _) h

-- Behaviour of the insert-ignore loop when some row hits a non-integrity
-- failure: the error propagates and the batch commit is never issued.
lemma iimGo_failure (rows : List RowOutcome) :
    ∀ i ins, RowOutcome.failure ∈ rows →
      (iimGo i rows ins).2 = Except.error () ∧
      (iimGo i rows ins).1.count SessionOp.commit = 0 := by
  induction rows with
  | nil =>
      intro i ins h
      simp at h
  | cons a rest ih =>
      intro i ins h
      cases a with
      | failure => exact ⟨rfl, rfl⟩
      | ok =>
          have hrest : RowOutcome.failure ∈ rest := by
            rcases List.mem_cons.mp h with h1 | h1
            · exact absurd h1 (by decide)
            · exact h1
          have hstep : iimGo i (RowOutcome.ok :: rest) ins
              = ([SessionOp.beginNested, SessionOp.addRecord i, SessionOp.releaseNested]
                  ++ (iimGo (i + 1) rest true).1, (iimGo (i + 1) rest true).2) := rfl
          obtain ⟨h1, h2⟩ := ih (i + 1) true hrest
          rw [hstep]
          refine ⟨h1, ?_⟩
          show ([SessionOp.beginNested, SessionOp.addRecord i, SessionOp.releaseNested]
              ++ (iimGo (i + 1) rest true).1).count SessionOp.commit = 0
          rw [List.count_append, h2]
          rfl
      | integrity =>
          have hrest : RowOutcome.failure ∈ rest := by
            rcases List.mem_cons.mp h with h1 | h1
            · exact absurd h1 (by decide)
            · exact h1
          have hstep : iimGo i (RowOutcome.integrity :: rest) ins
              = ([SessionOp.beginNested, SessionOp.addRecord i, SessionOp.rollbackNested]
                  ++ (iimGo (i + 1) rest ins).1, (iimGo (i + 1) rest ins).2) := rfl
          obtain ⟨h1, h2⟩ := ih (i + 1) ins hrest
          rw [hstep]
          refine ⟨h1, ?_⟩
          show ([SessionOp.beginNested, SessionOp.addRecord i, SessionOp.rollbackNested]
              ++ (iimGo (i + 1) rest ins).1).count SessionOp.commit = 0
          rw [List.count_append, h2]
          rfl

/-- Claim C3: in `insert_ignore_many`, an integrity violation discards
only that row's nested-scope effect and the loop continues without
setting `is_inserted` for that row (the staged records are exactly those
of the successful scopes), any other failure propagates uncaught with no
commit, after all rows are attempted exactly one commit is issued, and
the returned flag is true exactly when at least one row was newly
inserted. -/
theorem insert_ignore_many_spec (rows : List RowOutcome) :
    (RowOutcome.failure ∉ rows →
      (insert_ignore_many rows).2 = Except.ok (decide (RowOutcome.ok ∈ rows)) ∧
      (insert_ignore_many rows).1.count SessionOp.commit = 1 ∧
      applyOps (insert_ignore_many rows).1 [] [] = okIdx 0 rows) ∧
    (RowOutcome.failure ∈ rows →
      (insert_ignore_many rows).2 = Except.error () ∧
      (insert_ignore_many rows).1.count SessionOp.commit = 0) := by
  constructor
  · intro h
    obtain ⟨h1, h2, h3⟩ := iimGo_no_failure rows 0 false h
    refine ⟨by simpa using h1, h2, by simpa using h3 []⟩
  · intro h
    exact iimGo_failure rows 0 false h

/-- Witness for claim C3: a batch whose second row hits an integrity
violation still commits once and reports an insertion, with only the
first row staged; a batch whose second row hits another failure
propagates the error and never commits. -/
theorem insert_ignore_many_spec_witness :
    ((insert_ignore_many [RowOutcome.ok, RowOutcome.integrity]).2 = Except.ok true ∧
     (insert_ignore_many [RowOutcome.ok, RowOutcome.integrity]).1.count SessionOp.commit = 1 ∧
     applyOps (insert_ignore_many [RowOutcome.ok, RowOutcome.integrity]).1 [] [] = [0]) ∧
    ((insert_ignore_many [RowOutcome.ok, RowOutcome.failure]).2 = Except.error () ∧
     (insert_ignore_many [RowOutcome.ok, RowOutcome.failure]).1.count SessionOp.commit = 0) := by
  have hA := (insert_ignore_many_spec [RowOutcome.ok, RowOutcome.integrity]).1 (by decide)
  have hB := (insert_ignore_many_spec [RowOutcome.ok, RowOutcome.failure]).2 (by decide)
  exact ⟨⟨by simpa using hA.1, hA.2.1, by simpa [okIdx] using hA.2.2⟩, hB⟩

/-- Claim C5: whenever the computed on-duplicate update clause is empty,
`upsert` returns at once with no statement executed and no error; in
particular with `filter_unque_primary_keys` set, a table all of whose
columns are flagged unique or primary-key always yields an empty clause. -/
theorem upsert_empty_update_noop (inserted cols : List Column) (dc es cs : Bool) :
    (∀ fupk, update_dict inserted cols fupk = [] →
        upsert inserted cols fupk dc es cs = Except.ok []) ∧
    ((∀ c ∈ cols, c.unique = true ∨ c.primary_key = true) →
        update_dict inserted cols true = []) := by
  constructor
  · intro fupk h
    simp [upsert, h]
  · intro h
    have hf : (inserted.filter (fun x =>
        cols.any (fun c => x.name == c.name && !c.unique && !c.primary_key))) = [] := by
      rw [List.filter_eq_nil_iff]
      intro x _
      rw [Bool.not_eq_true, List.any_eq_false]
      intro c hc
      rcases h c hc with h1 | h1 <;> simp [h1]
    simp [update_dict, hf]

/-- Witness for claim C5: a one-column table whose only column is the
primary key; the update clause is empty and `upsert` executes nothing. -/
theorem upsert_empty_update_noop_witness :
    update_dict [Column.mk "id" false true] [Column.mk "id" false true] true = [] ∧
    upsert [Column.mk "id" false true] [Column.mk "id" false true] true true true true
      = Except.ok [] :=
  ⟨(upsert_empty_update_noop [Column.mk "id" false true] [Column.mk "id" false true]
      true true true).2 (by decide),
   (upsert_empty_update_noop [Column.mk "id" false true] [Column.mk "id" false true]
      true true true).1 true (by decide)⟩

/-- Claim C6: in `upsert` with `do_commit` set, a failing commit is
caught, the session is rolled back, and the error is not re-raised: the
call returns normally with the execute / commit-attempt / rollback trace. -/
theorem upsert_commit_failure_swallowed (inserted cols : List Column) (fupk : Bool)
    (h : update_dict inserted cols fupk ≠ []) :
    upsert inserted cols fupk true true false
      = Except.ok [UpsertOp.executeStmt, UpsertOp.commit, UpsertOp.rollback] := by
  have hE : (update_dict inserted cols fupk).isEmpty = false := by
    cases hu : update_dict inserted cols fupk with
    | nil => exact absurd hu h
    | cons a l => rfl
  simp [upsert, hE]

/-- Witness for claim C6: a plain data column keeps the update clause
nonempty, and a failing commit ends in a swallowed rollback. -/
theorem upsert_commit_failure_swallowed_witness :
    update_dict [Column.mk "v" false false] [Column.mk "v" false false] true ≠ [] ∧
    upsert [Column.mk "v" false false] [Column.mk "v" false false] true true true false
      = Except.ok [UpsertOp.executeStmt, UpsertOp.commit, UpsertOp.rollback] :=
  ⟨by decide,
   upsert_commit_failure_swallowed [Column.mk "v" false false] [Column.mk "v" false false]
     true (by decide)⟩

-- The statement loop only ever issues statement executions.
lemma esGo_trace_exec (stmts : List StmtOutcome) :
    ∀ i, ∀ op ∈ (esGo i stmts).1, ∃ j, op = ConnOp.execStmt j := by
  induction stmts with
  | nil =>
      intro i op hop
      simp [esGo] at hop
  | cons a rest ih =>
      intro i op hop
      cases a with
      | succeeds =>
          rw [show esGo i (StmtOutcome.succeeds :: rest)
              = (ConnOp.execStmt i :: (esGo (i + 1) rest).1, (esGo (i + 1) rest).2)
              from rfl] at hop
          rcases List.mem_cons.mp hop with h1 | h1
          · exact ⟨i, h1⟩
          · exact ih (i + 1) op h1
      | fails =>
          rw [show esGo i (StmtOutcome.fails :: rest)
              = ([ConnOp.execStmt i], Except.error ()) from rfl] at hop
          rcases List.mem_cons.mp hop with h1 | h1
          · exact ⟨i, h1⟩
          · simp at h1

-- When every statement succeeds, the loop executes them all in order.
lemma esGo_all_ok (stmts : List StmtOutcome) :
    ∀ i, (∀ s ∈ stmts, s = StmtOutcome.succeeds) →
      esGo i stmts = ((List.range' i stmts.length).map ConnOp.execStmt, Except.ok ()) := by
  induction stmts with
  | nil =>
      intro i _
      rfl
  | cons a rest ih =>
      intro i h
      have ha : a = StmtOutcome.succeeds := h a (List.mem_cons_self _ _)
      subst ha
      have hrest : ∀ s ∈ rest, s = StmtOutcome.succeeds :=
        fun s hs => h s (List.mem_cons_of_mem _ hs)
      rw [show esGo i (StmtOutcome.succeeds :: rest)
          = (ConnOp.execStmt i :: (esGo (i + 1) rest).1, (esGo (i + 1) rest).2) from rfl,
        ih (i + 1) hrest]
      rfl

-- A failing statement after an all-successful prefix stops the loop
-- right there and the error propagates.
lemma esGo_fail_after (pre : List StmtOutcome) :
    ∀ i post, (∀ s ∈ pre, s = StmtOutcome.succeeds) →
      esGo i (pre ++ StmtOutcome.fails :: post)
        = ((List.range' i (pre.length + 1)).map ConnOp.execStmt, Except.error ()) := by
  induction pre with
  | nil =>
      intro i post _
      rfl
  | cons a rest ih =>
      intro i post h
      have ha : a = StmtOutcome.succeeds := h a (List.mem_cons_self _ _)
      subst ha
      have hrest : ∀ s ∈ rest, s = StmtOutcome.succeeds :=
        fun s hs => h s (List.mem_cons_of_mem _ hs)
      rw [show esGo i ((StmtOutcome.succeeds :: rest) ++ StmtOutcome.fails :: post)
          = (ConnOp.execStmt i :: (esGo (i + 1) (rest ++ StmtOutcome.fails :: post)).1,
             (esGo (i + 1) (rest ++ StmtOutcome.fails :: post)).2) from rfl,
        ih (i + 1) post hrest]
      rfl

/-- Claim C9: `execute_sqls` opens exactly one connection, never rolls
back, executes the statements in order when all succeed, and when some
statement fails after an all-successful prefix it executes nothing past
the failing statement and the storage error propagates. -/
theorem execute_sqls_spec (stmts : List StmtOutcome) :
    (execute_sqls stmts).1.count ConnOp.connect = 1 ∧
    ConnOp.rollback ∉ (execute_sqls stmts).1 ∧
    ((∀ s ∈ stmts, s = StmtOutcome.succeeds) →
      execute_sqls stmts
        = (ConnOp.connect :: (List.range stmts.length).map ConnOp.execStmt,
           Except.ok ())) ∧
    (∀ pre post, stmts = pre ++ StmtOutcome.fails :: post →
      (∀ s ∈ pre, s = StmtOutcome.succeeds) →
      execute_sqls stmts
        = (ConnOp.connect :: (List.range (pre.length + 1)).map ConnOp.execStmt,
           Except.error ())) := by
  have htr := esGo_trace_exec stmts 0
  have hconnect : ConnOp.connect ∉ (esGo 0 stmts).1 := by
    intro hc
    rcases htr _ hc with ⟨j, hj⟩
    exact ConnOp.noConfusion hj
  have hroll : ConnOp.rollback ∉ (esGo 0 stmts).1 := by
    intro hc
    rcases htr _ hc with ⟨j, hj⟩
    exact ConnOp.noConfusion hj
  refine ⟨?_, ?_, ?_, ?_⟩
  · show (ConnOp.connect :: (esGo 0 stmts).1).count ConnOp.connect = 1
    rw [List.count_cons_self, List.count_eq_zero.mpr hconnect]
  · show ConnOp.rollback ∉ ConnOp.connect :: (esGo 0 stmts).1
    intro hc
    rcases List.mem_cons.mp hc with h1 | h1
    · exact ConnOp.noConfusion h1
    · exact hroll h1
  · intro h
    show (ConnOp.connect :: (esGo 0 stmts).1, (esGo 0 stmts).2) = _
    rw [esGo_all_ok stmts 0 h, List.range_eq_range']
  · intro pre post hsplit hpre
    subst hsplit
    show (ConnOp.connect
        :: (esGo 0 (pre ++ StmtOutcome.fails :: post)).1,
        (esGo 0 (pre ++ StmtOutcome.fails :: post)).2) = _
    rw [esGo_fail_after pre 0 post hpre, List.range_eq_range']

/-- Witness for claim C9: a batch whose second statement fails stops
there with the error propagated; an all-successful batch runs to the end. -/
theorem execute_sqls_spec_witness :
    execute_sqls [StmtOutcome.succeeds, StmtOutcome.fails, StmtOutcome.succeeds]
      = (ConnOp.connect :: (List.range 2).map ConnOp.execStmt, Except.error ()) ∧
    execute_sqls [StmtOutcome.succeeds, StmtOutcome.succeeds]
      = (ConnOp.connect :: (List.range 2).map ConnOp.execStmt, Except.ok ()) := by
  constructor
  · have h := (execute_sqls_spec
        [StmtOutcome.succeeds, StmtOutcome.fails, StmtOutcome.succeeds]).2.2.2
        [StmtOutcome.succeeds] [StmtOutcome.succeeds] rfl (by decide)
    simpa using h
  · have h := (execute_sqls_spec
        [StmtOutcome.succeeds, StmtOutcome.succeeds]).2.2.1 (by decide)
    simpa using h
